import Mathlib

/-!
Shallow embedding of the agent orchestration loop, the tool registry and the
cron matcher of the personal-assistant backend
(src/backend/app/services/agent.py, tools/base.py, tools/registry.py,
scheduler/scheduler.py), together with theorems settling the spec claims.
-/

namespace Assistant

/-- A `google.genai` function-call part: a tool name and an argument mapping
(`fc.args`; argument values are modelled opaquely as strings). -/
structure FunctionCall where
  name : String
  args : List (String × String)
deriving Repr, DecidableEq

/-- A `google.genai` function-response part, as built at agent.py lines
203-208: `types.FunctionResponse(name=tool_name, response={"result": result})`.
The `response` dict is kept as a key-value list. -/
structure FunctionResponse where
  name : String
  response : List (String × String)
deriving Repr, DecidableEq

/-- A `types.Part`: exactly one of a text part, a function-call part or a
function-response part (the three alternatives `agent.py` inspects). -/
inductive Part where
  | text (s : String)
  | functionCall (fc : FunctionCall)
  | functionResponse (fr : FunctionResponse)
deriving Repr, DecidableEq

/-- `part.function_call` truthiness (agent.py line 171). -/
def Part.isFunctionCall : Part → Bool
  | Part.functionCall _ => true
  | _ => false

/-- `part.function_response` truthiness. -/
def Part.isFunctionResponse : Part → Bool
  | Part.functionResponse _ => true
  | _ => false

/-- The text carried by a part, when it is a text part. -/
def partText : Part → Option String
  | Part.text s => some s
  | _ => none

/-- The tool name of a part, when it is a function-call part. -/
def partCallName : Part → Option String
  | Part.functionCall fc => some fc.name
  | _ => none

/-- The tool name of a part, when it is a function-response part. -/
def partResponseName : Part → Option String
  | Part.functionResponse fr => some fr.name
  | _ => none

/-- A `types.Content`: a role string plus an ordered list of parts. -/
structure Content where
  role : String
  parts : List Part
deriving Repr, DecidableEq

/-- The names of the function calls of a message, in part order. -/
def callNames (c : Content) : List String := c.parts.filterMap partCallName

/-- The names of the function responses of a message, in part order. -/
def responseNames (c : Content) : List String := c.parts.filterMap partResponseName

/-- A `generate_content` response, reduced to the data `Agent.run` reads:
the content of each candidate. -/
structure GenerateContentResponse where
  candidates : List Content
deriving Repr, DecidableEq

/-- `response.text`: the concatenation of the text parts of the first
candidate, `None` when there are none. -/
def GenerateContentResponse.text (r : GenerateContentResponse) : Option String :=
  match r.candidates.head? with
  | none => none
  | some c =>
      let ts := c.parts.filterMap partText
      if ts.isEmpty then none else some (String.join ts)

/-- The check of agent.py lines 167-172: the first candidate exists and one of
its parts is a function call (the truthiness guard on `parts` is absorbed,
since `any` on an empty list is `false`). -/
def hasFunctionCalls (r : GenerateContentResponse) : Bool :=
  match r.candidates.head? with
  | some c => c.parts.any Part.isFunctionCall
  | none => false

/-- `ToolParameter` dataclass (tools/base.py lines 8-14). -/
structure ToolParameter where
  name : String
  type : String
  description : String
  required : Bool
  enum : Option (List String)
deriving Repr, DecidableEq

/-- `ToolDefinition` dataclass (tools/base.py lines 17-21). -/
structure ToolDefinition where
  name : String
  description : String
  parameters : List ToolParameter
deriving Repr, DecidableEq

/-- The property object built for one parameter (tools/base.py lines 28-31):
type, description, and the enum key only when `param.enum` is truthy. -/
structure GeminiProperty where
  type : String
  description : String
  enum : Option (List String)
deriving Repr, DecidableEq

/-- The function-declaration dict returned by `to_gemini_schema`
(tools/base.py lines 35-43); the constant `"type": "object"` entry is
structural and omitted. -/
structure GeminiSchema where
  name : String
  description : String
  properties : List (String × GeminiProperty)
  required : List String
deriving Repr, DecidableEq

/-- Python truthiness of `param.enum` (`None` and the empty list are falsy,
tools/base.py line 29). -/
def pyTruthyEnum : Option (List String) → Bool
  | none => false
  | some l => !l.isEmpty

/-- Python dict assignment `d[k] = v` on an insertion-ordered dict:
overwriting an existing key keeps the key's original position, a new key is
appended at the end. -/
def dictInsert {α : Type} (m : List (String × α)) (k : String) (v : α) :
    List (String × α) :=
  match m with
  | [] => [(k, v)]
  | kv :: rest => if kv.1 = k then (k, v) :: rest else kv :: dictInsert rest k v

/-- Python `dict.get(k)` (the first occurrence of a key is the entry; the
dict operations never create a second one). -/
def dictGet {α : Type} (m : List (String × α)) (k : String) : Option α :=
  match m with
  | [] => none
  | kv :: rest => if kv.1 = k then some kv.2 else dictGet rest k

/-- The loop of `to_gemini_schema` (tools/base.py lines 25-33), in parameter
order: `properties` is a Python dict, so `properties[param.name] = prop`
overwrites on a duplicate parameter name (the last property wins, at the
first occurrence's position), while `required` is a list grown by
`required.append(param.name)`. -/
def schemaFieldsAux (acc : List (String × GeminiProperty) × List String) :
    List ToolParameter → List (String × GeminiProperty) × List String
  | [] => acc
  | p :: rest =>
      schemaFieldsAux
        (dictInsert acc.1 p.name
           ⟨p.type, p.description, if pyTruthyEnum p.enum then p.enum else none⟩,
         if p.required then acc.2 ++ [p.name] else acc.2) rest

/-- The `properties` and `required` accumulated by `to_gemini_schema`,
starting from `properties = {}` and `required = []`. -/
def schemaFields (ps : List ToolParameter) :
    List (String × GeminiProperty) × List String :=
  schemaFieldsAux ([], []) ps

/-- `ToolDefinition.to_gemini_schema` (tools/base.py lines 23-43). -/
def ToolDefinition.to_gemini_schema (d : ToolDefinition) : GeminiSchema :=
  ⟨d.name, d.description, (schemaFields d.parameters).1, (schemaFields d.parameters).2⟩

/-- `BaseTool` (tools/base.py lines 46-55): a `definition()` plus an
asynchronous `execute(**kwargs)` returning a string, which may raise
(modelled as `Except` with the exception's text). -/
structure BaseTool where
  definition : ToolDefinition
  execute : List (String × String) → Except String String

/-- `ToolRegistry` (tools/registry.py lines 43-58): an insertion-ordered
mapping from tool name to tool. -/
structure ToolRegistry where
  _tools : List (String × BaseTool)

/-- `ToolRegistry.__init__`: the empty mapping. -/
def emptyRegistry : ToolRegistry := ⟨[]⟩

/-- `register` (registry.py lines 47-49): `self._tools[defn.name] = tool`. -/
def ToolRegistry.register (r : ToolRegistry) (tool : BaseTool) : ToolRegistry :=
  ⟨dictInsert r._tools tool.definition.name tool⟩

/-- `get` (registry.py lines 51-52): `self._tools.get(name)`. -/
def ToolRegistry.get (r : ToolRegistry) (name : String) : Option BaseTool :=
  dictGet r._tools name

/-- `definitions` (registry.py lines 54-55). -/
def ToolRegistry.definitions (r : ToolRegistry) : List ToolDefinition :=
  r._tools.map (fun kv => kv.2.definition)

/-- `gemini_declarations` (registry.py lines 57-58). -/
def ToolRegistry.gemini_declarations (r : ToolRegistry) : List GeminiSchema :=
  r.definitions.map ToolDefinition.to_gemini_schema

/-- A sequence of `register` calls, applied left to right. -/
def registerAll (r : ToolRegistry) (ts : List BaseTool) : ToolRegistry :=
  List.foldl ToolRegistry.register r ts

/-- One tool call inside the part loop of `Agent.run` (agent.py lines
194-201): a registered tool is executed, a raising tool is converted to an
`"Error executing ..."` string, an unregistered name to `"Unknown tool: ..."`.
No exception leaves this step. -/
def executeCall (reg : ToolRegistry) (fc : FunctionCall) : String :=
  match reg.get fc.name with
  | some tool =>
      match tool.execute fc.args with
      | Except.ok r => r
      | Except.error e => "Error executing " ++ fc.name ++ ": " ++ e
  | none => "Unknown tool: " ++ fc.name

/-- The part loop of `Agent.run` (agent.py lines 185-208): yields one progress
marker per function-call part and collects one function-response part per
call, in call order; parts that are not function calls are skipped. Returns
(yielded chunks, collected response parts). -/
def processParts (reg : ToolRegistry) : List Part → List String × List Part
  | [] => ([], [])
  | Part.functionCall fc :: rest =>
      let r := processParts reg rest
      (("\n[Using tool: " ++ fc.name ++ "]\n") :: r.1,
       Part.functionResponse ⟨fc.name, [("result", executeCall reg fc)]⟩ :: r.2)
  | _ :: rest => processParts reg rest

/-- The marker yielded for a function-call part (agent.py line 192). -/
def toolMarker : Part → Option String
  | Part.functionCall fc => some ("\n[Using tool: " ++ fc.name ++ "]\n")
  | _ => none

/-- The no-tool-call exit (agent.py lines 174-179): `response.text` is yielded
only when it is truthy (present and nonempty). -/
def pyTextChunks : Option String → List String
  | some t => if t = "" then [] else [t]
  | none => []

/-- The iteration loop of `Agent.run` (agent.py lines 126-213), with the
remaining iteration budget as fuel. Returns (yielded chunks, final local
history, number of provider calls made). The provider is the external
collaborator, a function of the conversation so far. -/
def runAux (reg : ToolRegistry) (provider : List Content → GenerateContentResponse) :
    Nat → List Content → List String × List Content × Nat
  | 0, contents => (["\n[Agent reached maximum iterations]"], contents, 0)
  | fuel + 1, contents =>
      let response := provider contents
      match response.candidates.head? with
      | none => (pyTextChunks response.text, contents, 1)
      | some c =>
          if c.parts.any Part.isFunctionCall then
            let pr := processParts reg c.parts
            let r := runAux reg provider fuel (contents ++ [c, ⟨"function", pr.2⟩])
            (pr.1 ++ r.1, r.2.1, r.2.2 + 1)
          else (pyTextChunks response.text, contents, 1)

/-- Observable outcome of one `Agent.run` invocation: the chunks yielded in
order, the loop's local `contents` list when it stops, the number of provider
calls made, and the caller-supplied `messages` list as the caller sees it
after the run. -/
structure RunResult where
  chunks : List String
  finalContents : List Content
  providerCalls : Nat
  callerMessages : List Content
deriving Repr, DecidableEq

/-- `Agent.run` (agent.py lines 112-213) with its hard-coded
`max_iterations = 10`. Line 124 copies the caller's `messages` into a fresh
local `contents` list (`contents = [types.Content(**m) for m in messages]`);
every append goes to that copy and `messages` is only ever read, so the
caller's list after the run is `messages` unchanged. -/
def Agent.run (reg : ToolRegistry) (provider : List Content → GenerateContentResponse)
    (messages : List Content) : RunResult :=
  let contents := messages
  let r := runAux reg provider 10 contents
  ⟨r.1, r.2.1, r.2.2, messages⟩

/-- `c.isWhitespace`-trimming of both ends of a character list (Python
`str.strip()` with no argument). -/
def trimWs (l : List Char) : List Char :=
  ((l.dropWhile Char.isWhitespace).reverse.dropWhile Char.isWhitespace).reverse

/-- Python `str.strip()`. -/
def pyStrip (s : String) : String := String.mk (trimWs s.toList)

/-- Helper for Python `str.split()` with no separator: accumulate the current
token (reversed) and split on whitespace runs, dropping empty tokens. -/
def wsSplitAux : List Char → List Char → List String
  | [], acc => if acc.isEmpty then [] else [String.mk acc.reverse]
  | c :: rest, acc =>
      if c.isWhitespace then
        if acc.isEmpty then wsSplitAux rest []
        else String.mk acc.reverse :: wsSplitAux rest []
      else wsSplitAux rest (c :: acc)

/-- Python `str.split()` with no separator. -/
def pySplitWs (s : String) : List String := wsSplitAux s.toList []

/-- Helper for Python `str.split(",")`: split on every comma, keeping empty
pieces. -/
def commaSplitAux : List Char → List Char → List String
  | [], acc => [String.mk acc.reverse]
  | c :: rest, acc =>
      if c = ',' then String.mk acc.reverse :: commaSplitAux rest []
      else commaSplitAux rest (c :: acc)

/-- Python `str.split(",")`. -/
def commaSplit (s : String) : List String := commaSplitAux s.toList []

/-- ASCII decimal digit test. -/
def isAsciiDigit (c : Char) : Bool := decide ('0' ≤ c) && decide (c ≤ '9')

/-- A nonempty digit run as accepted by Python `int()`, allowing single
underscores between digits. -/
def pyDigitSeq : List Char → Bool
  | [] => false
  | [c] => isAsciiDigit c
  | c :: '_' :: rest => isAsciiDigit c && pyDigitSeq rest
  | c :: rest => isAsciiDigit c && pyDigitSeq rest

/-- Numeric value of a digit run (underscores removed by the caller). -/
def digitsVal (l : List Char) : Nat :=
  l.foldl (fun n c => n * 10 + (c.toNat - 48)) 0

/-- Python `int(s)` on a string: surrounding whitespace and one optional sign
are allowed around a digit run; anything else raises `ValueError`, modelled as
`none`. -/
def pyInt? (s : String) : Option Int :=
  match trimWs s.toList with
  | '+' :: ds =>
      if pyDigitSeq ds then some (digitsVal (ds.filter (fun c => c ≠ '_')) : Int) else none
  | '-' :: ds =>
      if pyDigitSeq ds then some (-(digitsVal (ds.filter (fun c => c ≠ '_')) : Int)) else none
  | ds =>
      if pyDigitSeq ds then some (digitsVal (ds.filter (fun c => c ≠ '_')) : Int) else none

/-- One field check of `_cron_matches_now` (scheduler.py lines 36-46): `"*"`
matches anything; a pattern containing a comma matches when the value is among
the parsed list entries; otherwise the pattern must parse to exactly the
value. A `ValueError` from `int()` makes the whole match return `False`,
modelled by the `none` branches. -/
def cronFieldMatches (pattern : String) (value : Int) : Bool :=
  if pattern = "*" then true
  else if pattern.toList.contains ',' then
    match List.mapM pyInt? (commaSplit pattern) with
    | some vs => vs.contains value
    | none => false
  else
    match pyInt? pattern with
    | some v => decide (v = value)
    | none => false

/-- The fields of a Python `datetime` that `_cron_matches_now` reads;
`isoweekday` is 1 = Monday … 7 = Sunday as in Python. -/
structure PyDateTime where
  minute : Nat
  hour : Nat
  day : Nat
  month : Nat
  isoweekday : Nat
deriving Repr, DecidableEq

/-- `_cron_matches_now` (scheduler.py lines 19-48): split the expression into
whitespace-separated fields, require exactly five, then check each field
against the corresponding time component (`now.isoweekday() % 7`, 0 = Sunday,
for day-of-week). -/
def _cron_matches_now (cron_expr : String) (now : PyDateTime) : Bool :=
  match pySplitWs (pyStrip cron_expr) with
  | [p0, p1, p2, p3, p4] =>
      [(p0, (now.minute : Int)), (p1, (now.hour : Int)), (p2, (now.day : Int)),
       (p3, (now.month : Int)), (p4, ((now.isoweekday % 7 : Nat) : Int))].all
        (fun pv => cronFieldMatches pv.1 pv.2)
  | _ => false

/-- A field the matcher's try block accepts without a `ValueError`: `"*"`, an
integer, or a comma-separated list of integers. -/
def goodField (pat : String) : Bool :=
  decide (pat = "*") ||
    (if pat.toList.contains ',' then (List.mapM pyInt? (commaSplit pat)).isSome
     else (pyInt? pat).isSome)

/-- The shape of everything `Agent.run` appends to its history: model
messages, each immediately followed by one role `"function"` message made of
function-response parts whose names are the call names of the model message,
in call order. -/
def pairedAppended : List Content → Prop
  | [] => True
  | m :: f :: rest =>
      f.role = "function" ∧ responseNames f = callNames m ∧
      (∀ p ∈ f.parts, p.isFunctionResponse = true) ∧ pairedAppended rest
  | [_] => False

/- Concrete fixtures used by witnesses and counterexamples. -/

/-- A tool whose `execute` always raises `Exception("kaboom")`. -/
def boomTool : BaseTool :=
  ⟨⟨"boom", "always fails", []⟩, fun _ => Except.error "kaboom"⟩

/-- A registry holding only `boomTool`. -/
def boomReg : ToolRegistry := ToolRegistry.register emptyRegistry boomTool

/-- The single user message of the spec's concrete scenario. -/
def userMsg : Content := ⟨"user", [Part.text "hi"]⟩

/-- A provider that always answers with plain text `"hello"`. -/
def helloProvider : List Content → GenerateContentResponse :=
  fun _ => ⟨[⟨"model", [Part.text "hello"]⟩]⟩

/-- A provider stub that always requests the (unregistered) tool `"A"`. -/
def callAProvider : List Content → GenerateContentResponse :=
  fun _ => ⟨[⟨"model", [Part.functionCall ⟨"A", []⟩]⟩]⟩

/-- The model message of `narrateProvider`'s first response: narration text
interleaved with a tool call. -/
def narrContent : Content :=
  ⟨"model", [Part.text "Let me check", Part.functionCall ⟨"A", []⟩]⟩

/-- A provider whose first response narrates and calls tool `"A"`, and whose
later responses are the plain text `"done"`. -/
def narrateProvider : List Content → GenerateContentResponse :=
  fun contents =>
    if contents.length ≤ 1 then ⟨[narrContent]⟩
    else ⟨[⟨"model", [Part.text "done"]⟩]⟩

/-- A parameter with an enum constraint, for the declaration witnesses. -/
def colorParam : ToolParameter :=
  ⟨"color", "string", "a color", true, some ["red", "blue"]⟩

/-- An optional parameter without enum, for the declaration witnesses. -/
def countParam : ToolParameter :=
  ⟨"count", "integer", "how many", false, none⟩

/-- A tool named `"a"` with both witness parameters. -/
def toolA : BaseTool :=
  ⟨⟨"a", "tool a", [colorParam, countParam]⟩, fun _ => Except.ok "a-result"⟩

/-- A tool named `"b"` with no parameters. -/
def toolB : BaseTool :=
  ⟨⟨"b", "tool b", []⟩, fun _ => Except.ok "b-result"⟩

/-- A parameter named `"x"` carrying an enum, shadowed by a later parameter
of the same name. -/
def shadowParamA : ToolParameter := ⟨"x", "string", "first", true, some ["red"]⟩

/-- A later parameter also named `"x"`, without an enum. -/
def shadowParamB : ToolParameter := ⟨"x", "string", "second", false, none⟩

/-- A tool with two parameters sharing the name `"x"`: the dict assignment
`properties[param.name] = prop` keeps only the second property. -/
def shadowTool : BaseTool :=
  ⟨⟨"shadow", "dup params", [shadowParamA, shadowParamB]⟩, fun _ => Except.ok "ok"⟩

/-! Helper lemmas about the part loop and the iteration loop. -/

theorem processParts_fst (reg : ToolRegistry) (parts : List Part) :
    (processParts reg parts).1 = parts.filterMap toolMarker := by
  induction parts with
  | nil => rfl
  | cons p rest ih =>
      cases p <;> simp [processParts, toolMarker, List.filterMap_cons, ih]

theorem processParts_snd (reg : ToolRegistry) (parts : List Part) :
    (processParts reg parts).2 = parts.filterMap (fun p =>
      match p with
      | Part.functionCall fc =>
          some (Part.functionResponse ⟨fc.name, [("result", executeCall reg fc)]⟩)
      | _ => none) := by
  induction parts with
  | nil => rfl
  | cons p rest ih =>
      cases p <;> simp [processParts, List.filterMap_cons, ih]

theorem processParts_responseNames (reg : ToolRegistry) (parts : List Part) :
    (processParts reg parts).2.filterMap partResponseName = parts.filterMap partCallName := by
  induction parts with
  | nil => rfl
  | cons p rest ih =>
      cases p <;>
        simp [processParts, partResponseName, partCallName, List.filterMap_cons, ih]

theorem processParts_all_responses (reg : ToolRegistry) (parts : List Part) :
    ∀ p ∈ (processParts reg parts).2, p.isFunctionResponse = true := by
  induction parts with
  | nil => intro p hp; cases hp
  | cons q rest ih =>
      intro p hp
      cases q with
      | functionCall fc =>
          rcases List.mem_cons.mp hp with h | h
          · subst h; rfl
          · exact ih p h
      | text s => exact ih p hp
      | functionResponse fr => exact ih p hp

theorem runAux_appends (reg : ToolRegistry)
    (provider : List Content → GenerateContentResponse) :
    ∀ (fuel : Nat) (contents : List Content), ∃ app,
      (runAux reg provider fuel contents).2.1 = contents ++ app ∧ pairedAppended app := by
  intro fuel
  induction fuel with
  | zero => intro contents; exact ⟨[], by simp [runAux], trivial⟩
  | succ fuel ih =>
      intro contents
      rcases hc : (provider contents).candidates.head? with _ | c
      · exact ⟨[], by simp [runAux, hc], trivial⟩
      · by_cases hcall : c.parts.any Part.isFunctionCall
        · obtain ⟨app, happ, hpair⟩ :=
            ih (contents ++ [c, ⟨"function", (processParts reg c.parts).2⟩])
          refine ⟨c :: ⟨"function", (processParts reg c.parts).2⟩ :: app, ?_, ?_⟩
          · simp only [runAux, hc, hcall, if_true]
            simp [happ]
          · refine ⟨rfl, ?_, processParts_all_responses reg c.parts, hpair⟩
            simpa [responseNames, callNames] using processParts_responseNames reg c.parts
        · exact ⟨[], by simp [runAux, hc, hcall], trivial⟩

theorem runAux_exhausts (reg : ToolRegistry)
    (provider : List Content → GenerateContentResponse)
    (h : ∀ cs, hasFunctionCalls (provider cs) = true) :
    ∀ (fuel : Nat) (contents : List Content),
      (runAux reg provider fuel contents).2.2 = fuel ∧
      ∃ pre, (runAux reg provider fuel contents).1 =
        pre ++ ["\n[Agent reached maximum iterations]"] := by
  intro fuel
  induction fuel with
  | zero => intro contents; exact ⟨rfl, [], rfl⟩
  | succ fuel ih =>
      intro contents
      rcases hc : (provider contents).candidates.head? with _ | c
      · have := h contents
        simp [hasFunctionCalls, hc] at this
      · have hcall : c.parts.any Part.isFunctionCall = true := by
          have := h contents
          simpa [hasFunctionCalls, hc] using this
        obtain ⟨hn, pre, hpre⟩ :=
          ih (contents ++ [c, ⟨"function", (processParts reg c.parts).2⟩])
        constructor
        · simp [runAux, hc, hcall, hn]
        · refine ⟨(processParts reg c.parts).1 ++ pre, ?_⟩
          simp only [runAux, hc, hcall, if_true]
          simp [hpre]

theorem runAux_no_calls (reg : ToolRegistry)
    (provider : List Content → GenerateContentResponse)
    (contents : List Content) (fuel : Nat)
    (h : hasFunctionCalls (provider contents) = false) :
    runAux reg provider (fuel + 1) contents =
      (pyTextChunks (provider contents).text, contents, 1) := by
  rcases hc : (provider contents).candidates.head? with _ | c
  · simp [runAux, hc]
  · have hcall : c.parts.any Part.isFunctionCall = false := by
      simpa [hasFunctionCalls, hc] using h
    simp [runAux, hc, hcall]

/-! Claim theorems. -/

/-- Claim C1: in every run, each model message with tool calls appended to
the in-run history is immediately followed by a single appended role
`"function"` message whose tool-result parts carry the same tool names in the
same order as the calls, whatever the registry (unknown tools included) and
whatever the tools do (errors included) — no tool call is left unpaired. -/
theorem C1_pairing_invariant (reg : ToolRegistry)
    (provider : List Content → GenerateContentResponse) (messages : List Content) :
    ∃ app, (Agent.run reg provider messages).finalContents = messages ++ app ∧
      pairedAppended app :=
  runAux_appends reg provider 10 messages

/-- Claim C2: when every provider response contains at least one tool-call
part, `Agent.run` terminates after exactly 10 provider calls (never 11) and
its final yielded chunk is the maximum-iterations notice; a provider that
always requests an unregistered tool is the witness instance. -/
theorem C2_iteration_cap (reg : ToolRegistry)
    (provider : List Content → GenerateContentResponse) (messages : List Content)
    (h : ∀ cs, hasFunctionCalls (provider cs) = true) :
    (Agent.run reg provider messages).providerCalls = 10 ∧
    ∃ pre, (Agent.run reg provider messages).chunks =
      pre ++ ["\n[Agent reached maximum iterations]"] :=
  runAux_exhausts reg provider h 10 messages

theorem C2_iteration_cap_witness :
    (Agent.run emptyRegistry callAProvider [userMsg]).providerCalls = 10 ∧
    ∃ pre, (Agent.run emptyRegistry callAProvider [userMsg]).chunks =
      pre ++ ["\n[Agent reached maximum iterations]"] :=
  C2_iteration_cap emptyRegistry callAProvider [userMsg] (fun _ => rfl)

/-- Claim C3: when the first provider response contains no tool-call part,
`Agent.run` makes exactly one provider call and terminates, and when that
response carries (nonempty) text `t` the run yields exactly the one chunk
`t`; the spec's concrete scenario (history `[user "hi"]`, response `"hello"`)
is the witness instance. -/
theorem C3_single_roundtrip (reg : ToolRegistry)
    (provider : List Content → GenerateContentResponse) (messages : List Content)
    (h : hasFunctionCalls (provider messages) = false) :
    (Agent.run reg provider messages).providerCalls = 1 ∧
    ∀ t, (provider messages).text = some t → t ≠ "" →
      (Agent.run reg provider messages).chunks = [t] := by
  have hrun : Agent.run reg provider messages =
      ⟨pyTextChunks (provider messages).text, messages, 1, messages⟩ := by
    have h9 := runAux_no_calls reg provider messages 9 h
    simp only [Agent.run]
    rw [show (10 : Nat) = 9 + 1 from rfl, h9]
  rw [hrun]
  exact ⟨rfl, fun t ht hne => by simp [pyTextChunks, ht, hne]⟩

theorem C3_single_roundtrip_witness :
    (Agent.run emptyRegistry helloProvider [userMsg]).providerCalls = 1 ∧
    (Agent.run emptyRegistry helloProvider [userMsg]).chunks = ["hello"] :=
  ⟨(C3_single_roundtrip emptyRegistry helloProvider [userMsg] rfl).1,
   (C3_single_roundtrip emptyRegistry helloProvider [userMsg] rfl).2 "hello" rfl
     (by decide)⟩

/-- Claim C4: for every tool-call part processed by the loop, the value
recorded as that call's tool-result is `executeCall`, which synthesizes
`"Unknown tool: <name>"` when the name is absent from the registry and
`"Error executing <name>: <error>"` when the tool's `execute` raises; the
exception is consumed at that point (agent.py lines 194-208), so it never
escapes `Agent.run`, whose embedding is total. -/
theorem C4_tool_error_handling (reg : ToolRegistry) (fc : FunctionCall)
    (parts : List Part) (hmem : Part.functionCall fc ∈ parts) :
    Part.functionResponse ⟨fc.name, [("result", executeCall reg fc)]⟩ ∈
      (processParts reg parts).2 ∧
    (reg.get fc.name = none → executeCall reg fc = "Unknown tool: " ++ fc.name) ∧
    (∀ tool e, reg.get fc.name = some tool → tool.execute fc.args = Except.error e →
      executeCall reg fc = "Error executing " ++ fc.name ++ ": " ++ e) := by
  refine ⟨?_, ?_, ?_⟩
  · rw [processParts_snd]
    exact List.mem_filterMap.mpr ⟨Part.functionCall fc, hmem, rfl⟩
  · intro hn; simp [executeCall, hn]
  · intro tool e ht he; simp [executeCall, ht, he]

theorem C4_tool_error_handling_witness :
    Part.functionResponse ⟨"boom", [("result", executeCall boomReg ⟨"boom", []⟩)]⟩ ∈
      (processParts boomReg [Part.functionCall ⟨"boom", []⟩]).2 ∧
    executeCall boomReg ⟨"boom", []⟩ = "Error executing boom: kaboom" ∧
    executeCall boomReg ⟨"ghost", []⟩ = "Unknown tool: ghost" := by
  have h1 := C4_tool_error_handling boomReg ⟨"boom", []⟩
    [Part.functionCall ⟨"boom", []⟩] (by simp)
  have h2 := C4_tool_error_handling boomReg ⟨"ghost", []⟩
    [Part.functionCall ⟨"ghost", []⟩] (by simp)
  exact ⟨h1.1, h1.2.2 boomTool "kaboom" rfl rfl, h2.2.1 rfl⟩

/-- Claim C5, counterexample: a response interleaving the narration text
`"Let me check"` with a tool call is appended to history, but the narration is
never yielded — the run's chunks are exactly the tool marker and the next
round's final text, so the claim that interleaved text is surfaced to the
output stream before tool execution is false on the code. -/
theorem C5_counterexample_no_narration :
    (Agent.run emptyRegistry narrateProvider [userMsg]).chunks =
      ["\n[Using tool: A]\n", "done"] ∧
    "Let me check" ∉ (Agent.run emptyRegistry narrateProvider [userMsg]).chunks := by
  decide

/-- Claim C5 as amended: in an iteration whose response contains tool-call
parts, the response message `c` is appended to the in-run history verbatim
(interleaved text preserved in history), but the only chunks surfaced before
the iteration's tool results are the per-call progress markers — the
interleaved text is not yielded. -/
theorem C5_amended_markers_only (reg : ToolRegistry)
    (provider : List Content → GenerateContentResponse)
    (contents : List Content) (fuel : Nat) (c : Content)
    (hc : (provider contents).candidates.head? = some c)
    (hcall : c.parts.any Part.isFunctionCall = true) :
    runAux reg provider (fuel + 1) contents =
      ((processParts reg c.parts).1 ++
         (runAux reg provider fuel
           (contents ++ [c, ⟨"function", (processParts reg c.parts).2⟩])).1,
       (runAux reg provider fuel
           (contents ++ [c, ⟨"function", (processParts reg c.parts).2⟩])).2.1,
       (runAux reg provider fuel
           (contents ++ [c, ⟨"function", (processParts reg c.parts).2⟩])).2.2 + 1) ∧
    (processParts reg c.parts).1 = c.parts.filterMap toolMarker := by
  constructor
  · simp [runAux, hc, hcall]
  · exact processParts_fst reg c.parts

theorem C5_amended_markers_only_witness :
    runAux emptyRegistry narrateProvider 1 [] =
      ((processParts emptyRegistry narrContent.parts).1 ++
         (runAux emptyRegistry narrateProvider 0
           ([] ++ [narrContent, ⟨"function", (processParts emptyRegistry narrContent.parts).2⟩])).1,
       (runAux emptyRegistry narrateProvider 0
           ([] ++ [narrContent, ⟨"function", (processParts emptyRegistry narrContent.parts).2⟩])).2.1,
       (runAux emptyRegistry narrateProvider 0
           ([] ++ [narrContent, ⟨"function", (processParts emptyRegistry narrContent.parts).2⟩])).2.2 + 1) ∧
    (processParts emptyRegistry narrContent.parts).1 =
      narrContent.parts.filterMap toolMarker :=
  C5_amended_markers_only emptyRegistry narrateProvider [] 0 narrContent rfl rfl

/-- Claim C9, counterexample: in a run that executes a tool, the loop's local
history ends with three messages appended (model message, function message —
and none of them reach the caller's list), while the sequence the caller
passed in still holds only its original message: the updated history is not
returned through the caller-supplied sequence. -/
theorem C9_counterexample_caller_list_unchanged :
    (Agent.run emptyRegistry narrateProvider [userMsg]).callerMessages ≠
      (Agent.run emptyRegistry narrateProvider [userMsg]).finalContents ∧
    (Agent.run emptyRegistry narrateProvider [userMsg]).callerMessages.length = 1 ∧
    (Agent.run emptyRegistry narrateProvider [userMsg]).finalContents.length = 3 := by
  decide

/-- Claim C9 as amended: `Agent.run` copies the caller-supplied `messages`
into a local `contents` list (agent.py line 124); the model-response and
tool-result messages produced during the run are appended, in order, to that
local copy only, and the caller's sequence is unchanged after the run. -/
theorem C9_amended_local_history (reg : ToolRegistry)
    (provider : List Content → GenerateContentResponse) (messages : List Content) :
    (Agent.run reg provider messages).callerMessages = messages ∧
    ∃ app, (Agent.run reg provider messages).finalContents = messages ++ app :=
  ⟨rfl, (runAux_appends reg provider 10 messages).elim
    (fun app h => ⟨app, h.1⟩)⟩

/-! Helper lemmas about the registry's underlying dict. -/

theorem dictGet_dictInsert {α : Type} (m : List (String × α)) (k q : String) (v : α) :
    dictGet (dictInsert m k v) q = if k = q then some v else dictGet m q := by
  induction m with
  | nil => simp [dictInsert, dictGet]
  | cons kv rest ih =>
      by_cases hk : kv.1 = k
      · by_cases hq : k = q
        · simp [dictInsert, hk, dictGet, hq]
        · have hkq : kv.1 ≠ q := by rw [hk]; exact hq
          simp [dictInsert, hk, dictGet, hq, hkq]
      · by_cases hq : kv.1 = q
        · have hne : k ≠ q := fun h => hk (by rw [hq, h])
          simp [dictInsert, hk, dictGet, hq, hne, Ne.symm hne]
        · simp [dictInsert, hk, dictGet, hq, ih]

theorem dictInsert_keys {α : Type} (m : List (String × α)) (k : String) (v : α) :
    (dictInsert m k v).map Prod.fst =
      if k ∈ m.map Prod.fst then m.map Prod.fst else m.map Prod.fst ++ [k] := by
  induction m with
  | nil => simp [dictInsert]
  | cons kv rest ih =>
      by_cases hk : kv.1 = k
      · simp [dictInsert, hk]
      · have hne : ¬ k = kv.1 := fun h => hk h.symm
        by_cases hm : k ∈ rest.map Prod.fst
        · simp [dictInsert, hk, ih, hm, hne]
        · simp [dictInsert, hk, ih, hm, hne]

theorem dictInsert_notMem {α : Type} (m : List (String × α)) (k : String) (v : α)
    (h : k ∉ m.map Prod.fst) : dictInsert m k v = m ++ [(k, v)] := by
  induction m with
  | nil => rfl
  | cons kv rest ih =>
      simp only [List.map_cons, List.mem_cons] at h
      push_neg at h
      have hk : kv.1 ≠ k := fun hh => h.1 hh.symm
      simp [dictInsert, hk, ih h.2]

theorem register_get (r : ToolRegistry) (t : BaseTool) (name : String) :
    (r.register t).get name =
      if t.definition.name = name then some t else r.get name :=
  dictGet_dictInsert r._tools t.definition.name name t

theorem registerAll_get (ts : List BaseTool) (r : ToolRegistry) (name : String) :
    (registerAll r ts).get name =
      match List.find? (fun t => decide (t.definition.name = name)) ts.reverse with
      | some t => some t
      | none => r.get name := by
  induction ts generalizing r with
  | nil => simp [registerAll]
  | cons t ts ih =>
      have hstep : registerAll r (t :: ts) = registerAll (r.register t) ts := rfl
      rw [hstep, ih, List.reverse_cons, List.find?_append]
      rcases hf : List.find? (fun u => decide (u.definition.name = name)) ts.reverse
        with _ | u
      · by_cases ht : t.definition.name = name <;>
          simp [hf, List.find?, ht, register_get, Option.or]
      · simp [hf, Option.or]

theorem register_keys_toFinset (r : ToolRegistry) (t : BaseTool) :
    ((r.register t)._tools.map Prod.fst).toFinset =
      insert t.definition.name (r._tools.map Prod.fst).toFinset := by
  show ((dictInsert r._tools t.definition.name t).map Prod.fst).toFinset = _
  rw [dictInsert_keys]
  by_cases hm : t.definition.name ∈ r._tools.map Prod.fst
  · rw [if_pos hm, (Finset.insert_eq_self.mpr (List.mem_toFinset.mpr hm))]
  · rw [if_neg hm, List.toFinset_append]
    rw [Finset.insert_eq]
    simp [Finset.union_comm]

theorem register_keys_nodup (r : ToolRegistry) (t : BaseTool)
    (h : (r._tools.map Prod.fst).Nodup) :
    ((r.register t)._tools.map Prod.fst).Nodup := by
  show ((dictInsert r._tools t.definition.name t).map Prod.fst).Nodup
  rw [dictInsert_keys]
  by_cases hm : t.definition.name ∈ r._tools.map Prod.fst
  · rw [if_pos hm]; exact h
  · rw [if_neg hm]
    rw [List.nodup_append]
    exact ⟨h, List.nodup_singleton _, by
      intro a ha hb
      rw [List.mem_singleton] at hb
      exact hm (hb ▸ ha)⟩

theorem registerAll_keys_nodup (ts : List BaseTool) (r : ToolRegistry)
    (h : (r._tools.map Prod.fst).Nodup) :
    ((registerAll r ts)._tools.map Prod.fst).Nodup := by
  induction ts generalizing r with
  | nil => exact h
  | cons t ts ih => exact ih (r.register t) (register_keys_nodup r t h)

theorem registerAll_keys_toFinset (ts : List BaseTool) (r : ToolRegistry) :
    ((registerAll r ts)._tools.map Prod.fst).toFinset =
      (r._tools.map Prod.fst).toFinset ∪
        (ts.map (fun t => t.definition.name)).toFinset := by
  induction ts generalizing r with
  | nil => simp [registerAll]
  | cons t ts ih =>
      have hstep : registerAll r (t :: ts) = registerAll (r.register t) ts := rfl
      rw [hstep, ih, register_keys_toFinset]
      simp [Finset.insert_union, Finset.union_insert]

/-- Claim C6: after any sequence of `register` calls on a fresh registry,
`get name` returns the most recently registered tool whose declared name is
`name` (and `none` when there is none), and the number of declarations equals
the number of distinct registered names — re-registering a name overwrites
instead of duplicating. -/
theorem C6_registry_semantics (ts : List BaseTool) (name : String) :
    (registerAll emptyRegistry ts).get name =
      List.find? (fun t => decide (t.definition.name = name)) ts.reverse ∧
    ((registerAll emptyRegistry ts).gemini_declarations).length =
      (ts.map (fun t => t.definition.name)).toFinset.card := by
  constructor
  · rw [registerAll_get ts emptyRegistry name]
    rcases hf : List.find? (fun t => decide (t.definition.name = name)) ts.reverse
      with _ | u
    · simp [hf, emptyRegistry, ToolRegistry.get, dictGet]
    · simp [hf]
  · have hn := registerAll_keys_nodup ts emptyRegistry (by simp [emptyRegistry])
    have hf := registerAll_keys_toFinset ts emptyRegistry
    have hlen : ((registerAll emptyRegistry ts).gemini_declarations).length =
        ((registerAll emptyRegistry ts)._tools.map Prod.fst).length := by
      simp [ToolRegistry.gemini_declarations, ToolRegistry.definitions]
    rw [hlen, ← List.toFinset_card_of_nodup hn, hf]
    simp [emptyRegistry]

theorem registerAll_tools_of_disjoint (ts : List BaseTool) (r : ToolRegistry)
    (h : ∀ t ∈ ts, t.definition.name ∉ r._tools.map Prod.fst)
    (hnd : (ts.map (fun t => t.definition.name)).Nodup) :
    (registerAll r ts)._tools =
      r._tools ++ ts.map (fun t => (t.definition.name, t)) := by
  induction ts generalizing r with
  | nil => simp [registerAll]
  | cons t ts ih =>
      have hstep : registerAll r (t :: ts) = registerAll (r.register t) ts := rfl
      have hreg : (r.register t)._tools = r._tools ++ [(t.definition.name, t)] := by
        show dictInsert r._tools t.definition.name t = _
        exact dictInsert_notMem r._tools t.definition.name t (h t (by simp))
      have hnd' := hnd
      simp only [List.map_cons, List.nodup_cons] at hnd'
      rw [hstep, ih (r.register t) ?_ hnd'.2, hreg]
      · simp
      · intro u hu
        rw [hreg]
        simp only [List.map_append, List.mem_append]
        push_neg
        refine ⟨h u (List.mem_cons_of_mem t hu), ?_⟩
        simp only [List.map_cons, List.map_nil, List.mem_singleton]
        intro he
        exact hnd'.1 (he ▸ List.mem_map_of_mem (fun t => t.definition.name) hu)

theorem dictInsert_mem_self {α : Type} (m : List (String × α)) (k : String) (v : α) :
    (k, v) ∈ dictInsert m k v := by
  induction m with
  | nil => simp [dictInsert]
  | cons kv rest ih =>
      by_cases hk : kv.1 = k
      · simp [dictInsert, hk]
      · simp only [dictInsert, if_neg hk]
        exact List.mem_cons_of_mem kv ih

theorem dictInsert_mem_of_ne {α : Type} (m : List (String × α)) (k k2 : String)
    (v v2 : α) (hne : k ≠ k2) (hmem : (k, v) ∈ m) :
    (k, v) ∈ dictInsert m k2 v2 := by
  induction m with
  | nil => cases hmem
  | cons kv rest ih =>
      rcases List.mem_cons.mp hmem with h | h
      · by_cases hk : kv.1 = k2
        · exact absurd (by rw [← h] at hk; exact hk) hne
        · simp only [dictInsert, if_neg hk]
          rw [h]
          exact List.mem_cons_self kv (dictInsert rest k2 v2)
      · by_cases hk : kv.1 = k2
        · simp only [dictInsert, if_pos hk]
          exact List.mem_cons_of_mem _ h
        · simp only [dictInsert, if_neg hk]
          exact List.mem_cons_of_mem kv (ih h)

theorem schemaFieldsAux_append (xs ys : List ToolParameter)
    (acc : List (String × GeminiProperty) × List String) :
    schemaFieldsAux acc (xs ++ ys) = schemaFieldsAux (schemaFieldsAux acc xs) ys := by
  induction xs generalizing acc with
  | nil => rfl
  | cons p rest ih => simp [schemaFieldsAux, ih]

theorem schemaFieldsAux_snd (ps : List ToolParameter)
    (acc : List (String × GeminiProperty) × List String) :
    (schemaFieldsAux acc ps).2 =
      acc.2 ++ (ps.filter (fun p => p.required)).map (fun p => p.name) := by
  induction ps generalizing acc with
  | nil => simp [schemaFieldsAux]
  | cons p rest ih =>
      by_cases h : p.required <;> simp [schemaFieldsAux, List.filter_cons, h, ih]

theorem schemaFields_required (ps : List ToolParameter) :
    (schemaFields ps).2 = (ps.filter (fun p => p.required)).map (fun p => p.name) := by
  rw [schemaFields, schemaFieldsAux_snd]
  rfl

theorem schemaFieldsAux_mem (ps : List ToolParameter)
    (acc : List (String × GeminiProperty) × List String)
    (k : String) (v : GeminiProperty)
    (hmem : (k, v) ∈ acc.1) (hnot : ∀ q ∈ ps, q.name ≠ k) :
    (k, v) ∈ (schemaFieldsAux acc ps).1 := by
  induction ps generalizing acc with
  | nil => exact hmem
  | cons q rest ih =>
      refine ih _ ?_ (fun u hu => hnot u (List.mem_cons_of_mem q hu))
      exact dictInsert_mem_of_ne acc.1 k q.name v _
        (fun he => hnot q (List.mem_cons_self q rest) he.symm) hmem

theorem schemaFields_enum (ps : List ToolParameter) (p : ToolParameter)
    (hp : p ∈ ps) (honce : (ps.map (fun q => q.name)).count p.name = 1)
    (l : List String) (hl : p.enum = some l) (hne : l ≠ []) :
    (p.name, (⟨p.type, p.description, some l⟩ : GeminiProperty)) ∈
      (schemaFields ps).1 := by
  obtain ⟨l₁, l₂, rfl⟩ := List.append_of_mem hp
  have hc2 : (List.map (fun q => q.name) l₂).count p.name = 0 := by
    rw [List.map_append, List.count_append, List.map_cons, List.count_cons_self] at honce
    omega
  have hnot : ∀ q ∈ l₂, q.name ≠ p.name := by
    intro q hq he
    exact absurd (he ▸ List.mem_map_of_mem (fun q => q.name) hq)
      (List.count_eq_zero.mp hc2)
  rw [schemaFields,
    show l₁ ++ p :: l₂ = (l₁ ++ [p]) ++ l₂ by simp,
    schemaFieldsAux_append]
  refine schemaFieldsAux_mem l₂ _ p.name _ ?_ hnot
  rw [schemaFieldsAux_append]
  have htr : pyTruthyEnum (some l) = true := by
    simp [pyTruthyEnum]
    exact hne
  simp only [schemaFieldsAux, hl, htr, if_true]
  exact dictInsert_mem_self _ _ _

/-- Claim C7, counterexample: in a tool whose two parameters share the name
`"x"`, the first carrying the enum `["red"]`, the dict assignment
`properties[param.name] = prop` discards the shadowed property — the
registry's declaration contains no enum at all, so a present enum does not
always appear as the declared value constraint. -/
theorem C7_counterexample_shadowed_enum :
    shadowParamA ∈ shadowTool.definition.parameters ∧
    shadowParamA.enum = some ["red"] ∧
    (registerAll emptyRegistry [shadowTool]).gemini_declarations =
      [⟨"shadow", "dup params",
        [("x", ⟨"string", "second", none⟩)], ["x"]⟩] ∧
    ("x", (⟨"string", "first", some ["red"]⟩ : GeminiProperty)) ∉
      (shadowTool.definition.to_gemini_schema).properties := by
  decide

/-- Claim C7 as amended: for tools registered under pairwise-distinct names,
`gemini_declarations` returns one declaration per tool, in registration
order; each declaration's required list holds exactly the names of the
parameters with `required = true`, in parameter order; and a parameter whose
name no other parameter of the tool shares surfaces its truthy enum as the
declared value constraint (on duplicate parameter names the dict assignment
`properties[param.name] = prop` keeps only the last property, so a shadowed
enum is discarded). -/
theorem C7_gemini_declarations (ts : List BaseTool)
    (hnd : (ts.map (fun t => t.definition.name)).Nodup) :
    (registerAll emptyRegistry ts).gemini_declarations =
      ts.map (fun t => t.definition.to_gemini_schema) ∧
    (∀ t ∈ ts, (t.definition.to_gemini_schema).required =
      (t.definition.parameters.filter (fun p => p.required)).map (fun p => p.name)) ∧
    (∀ t ∈ ts, ∀ p ∈ t.definition.parameters,
      (t.definition.parameters.map (fun q => q.name)).count p.name = 1 →
      ∀ l, p.enum = some l → l ≠ [] →
      (p.name, (⟨p.type, p.description, some l⟩ : GeminiProperty)) ∈
        (t.definition.to_gemini_schema).properties) := by
  refine ⟨?_, ?_, ?_⟩
  · have htools := registerAll_tools_of_disjoint ts emptyRegistry
      (by intro t ht; simp [emptyRegistry]) hnd
    simp only [ToolRegistry.gemini_declarations, ToolRegistry.definitions]
    rw [htools]
    simp [emptyRegistry]
  · intro t _
    exact schemaFields_required t.definition.parameters
  · intro t _ p hp honce l hl hne
    exact schemaFields_enum t.definition.parameters p hp honce l hl hne

theorem C7_gemini_declarations_witness :
    (registerAll emptyRegistry [toolA, toolB]).gemini_declarations =
      [toolA.definition.to_gemini_schema, toolB.definition.to_gemini_schema] ∧
    (toolA.definition.to_gemini_schema).required = ["color"] ∧
    ("color", (⟨"string", "a color", some ["red", "blue"]⟩ : GeminiProperty)) ∈
      (toolA.definition.to_gemini_schema).properties := by
  have h := C7_gemini_declarations [toolA, toolB] (by decide)
  refine ⟨by simpa using h.1, ?_, ?_⟩
  · have := h.2.1 toolA (by simp)
    simpa using this
  · have := h.2.2 toolA (by simp) colorParam (by simp [toolA]) (by decide)
      ["red", "blue"] rfl (by decide)
    simpa [colorParam] using this

/-! Helper lemmas about the cron matcher. -/

theorem cron_star (v : Int) : cronFieldMatches "*" v = true := rfl

theorem cron_zero (v : Int) : cronFieldMatches "0" v = decide ((0 : Int) = v) := rfl

theorem cron_seven (v : Int) : cronFieldMatches "7" v = decide ((7 : Int) = v) := rfl

theorem cron_badField (pat : String) (v : Int) (hbad : goodField pat = false) :
    cronFieldMatches pat v = false := by
  rw [goodField, Bool.or_eq_false_iff] at hbad
  obtain ⟨h1, h2⟩ := hbad
  have hp : ¬ pat = "*" := by simpa using h1
  unfold cronFieldMatches
  rw [if_neg hp]
  by_cases hc : pat.toList.contains ','
  · rw [if_pos hc] at h2
    have hnone : List.mapM pyInt? (commaSplit pat) = none := by
      cases hm : List.mapM pyInt? (commaSplit pat) with
      | none => rfl
      | some vs => rw [hm] at h2; simp at h2
    rw [if_pos hc, hnone]
  · rw [if_neg hc] at h2
    have hnone : pyInt? pat = none := by
      cases hm : pyInt? pat with
      | none => rfl
      | some v0 => rw [hm] at h2; simp at h2
    rw [if_neg hc, hnone]

theorem cron_not5 (expr : String) (now : PyDateTime)
    (hlen : (pySplitWs (pyStrip expr)).length ≠ 5) :
    _cron_matches_now expr now = false := by
  unfold _cron_matches_now
  rcases h : pySplitWs (pyStrip expr) with
    _ | ⟨a, _ | ⟨b, _ | ⟨c, _ | ⟨d, _ | ⟨e, _ | ⟨f, rest⟩⟩⟩⟩⟩⟩
  · rfl
  · rfl
  · rfl
  · rfl
  · rfl
  · exact absurd (by rw [h]; rfl) hlen
  · rfl

theorem cron_badfield_result (expr : String) (now : PyDateTime) (p : String)
    (hp : p ∈ pySplitWs (pyStrip expr)) (hbad : goodField p = false) :
    _cron_matches_now expr now = false := by
  have hz : ∀ v, cronFieldMatches p v = false := fun v => cron_badField p v hbad
  by_cases hlen : (pySplitWs (pyStrip expr)).length = 5
  · unfold _cron_matches_now
    rcases h : pySplitWs (pyStrip expr) with
      _ | ⟨a, _ | ⟨b, _ | ⟨c, _ | ⟨d, _ | ⟨e, _ | ⟨f, rest⟩⟩⟩⟩⟩⟩
    · rfl
    · rfl
    · rfl
    · rfl
    · rfl
    · rw [h] at hp
      simp only [List.mem_cons, List.not_mem_nil, or_false] at hp
      rcases hp with rfl | rfl | rfl | rfl | rfl <;> simp [hz]
    · rfl
  · exact cron_not5 expr now hlen

/-- Claim C8: the cron matcher on expression `"0 7 * * *"` matches every
timestamp whose time is 07:00, whatever the day, month and weekday, and
matches neither 07:01 nor 08:00. -/
theorem C8_cron_scenario (d mo w : Nat) :
    _cron_matches_now "0 7 * * *" ⟨0, 7, d, mo, w⟩ = true ∧
    _cron_matches_now "0 7 * * *" ⟨1, 7, d, mo, w⟩ = false ∧
    _cron_matches_now "0 7 * * *" ⟨0, 8, d, mo, w⟩ = false := by
  have hsplit : pySplitWs (pyStrip "0 7 * * *") = ["0", "7", "*", "*", "*"] := rfl
  refine ⟨?_, ?_, ?_⟩ <;>
    · unfold _cron_matches_now
      rw [hsplit]
      simp [cron_star, cron_zero, cron_seven]

/-- Claim C10: `_cron_matches_now` is total (its embedding returns a `Bool`
for every expression and timestamp; the `ValueError` branch of the source is
the `none` case of `pyInt?`), and it returns `false` rather than failing both
when the expression does not split into exactly five whitespace-separated
fields and when any field is neither `"*"` nor an integer nor a
comma-separated list of integers. -/
theorem C10_cron_total (expr : String) (now : PyDateTime) :
    ((pySplitWs (pyStrip expr)).length ≠ 5 → _cron_matches_now expr now = false) ∧
    (∀ p ∈ pySplitWs (pyStrip expr), goodField p = false →
      _cron_matches_now expr now = false) :=
  ⟨cron_not5 expr now, fun p hp hbad => cron_badfield_result expr now p hp hbad⟩

theorem C10_cron_total_witness :
    _cron_matches_now "1 2 3" ⟨0, 0, 1, 1, 1⟩ = false ∧
    _cron_matches_now "x 7 * * *" ⟨0, 7, 1, 1, 1⟩ = false :=
  ⟨(C10_cron_total "1 2 3" ⟨0, 0, 1, 1, 1⟩).1 (by decide),
   (C10_cron_total "x 7 * * *" ⟨0, 7, 1, 1, 1⟩).2 "x" (by decide) (by decide)⟩

end Assistant
